import Mathlib

/-!
Verification of the `dir_crawler` concurrent content-discovery probe
(`src/main_update.rs`, with a duplicated engine in `src/dir-crawler-fix.rs`).

The development shallowly embeds the probing engine:

* `generate_urls` — the URL variant generator (`fn generate_urls`), which
  builds a `HashSet<String>` of probe URLs, modelled as a `Finset String`
  built by the same sequence of insertions;
* `total_paths`  — the progress-bar total computed by `fuzz_directory`;
* `record_response` / `probe_step` / `run_task` — the per-response status
  filter, the shared finding set insertion, the verbose error diagnostic and
  the per-URL progress increment of the task body;
* `rust_lines` / `read_wordlist` — the wordlist loading step
  (`BufReader::lines` semantics: line terminators stripped, no trimming;
  `File::open` failure propagates with `?`);
* `sort_findings` — the final stable sort of the finding snapshot by URL
  (`sorted_paths.sort_by(|a, b| a.0.cmp(&b.0))`), modelled as a stable
  insertion sort under the byte-lexicographic order on the URL;
* `ScanStep` / `ScanReachable` — the semaphore discipline of the spawn loop
  (acquire one of `threads` permits before the task runs, release when the
  task's whole unit of work completes).

Machine strings are treated through their character lists so that every
definition evaluates by `decide` on concrete inputs.
-/

/-- `base_url.trim_end_matches('/')`: remove every trailing `'/'`. -/
def trimSlashes (s : String) : String :=
  String.mk ((s.data.reverse.dropWhile (fun c => c = '/')).reverse)

/-- The URL variant generator `generate_urls` of `src/main_update.rs`
(lines 32–52): normalize the base URL, insert the bare and trailing-slash
variants, and, when extensions are present, insert `base/path.ext` and
`base/path.ext/` for each extension.  The Rust function accumulates into a
`HashSet<String>`; the embedding accumulates into a `Finset String` with the
same insertions. -/
def generate_urls (base_url : String) (path : String) (extensions : List String) :
    Finset String :=
  let b := trimSlashes base_url
  let urls : Finset String := ∅
  let urls := insert (b ++ "/" ++ path) urls
  let urls := insert (b ++ "/" ++ path ++ "/") urls
  if extensions.isEmpty then urls
  else
    extensions.foldl
      (fun u e => insert (b ++ "/" ++ path ++ "." ++ e ++ "/")
        (insert (b ++ "/" ++ path ++ "." ++ e) u)) urls

/-- The full list of URL strings the generator inserts, in source order. -/
def all_urls (base_url : String) (path : String) (extensions : List String) :
    List String :=
  let b := trimSlashes base_url
  [b ++ "/" ++ path, b ++ "/" ++ path ++ "/"] ++
    extensions.flatMap
      (fun e => [b ++ "/" ++ path ++ "." ++ e, b ++ "/" ++ path ++ "." ++ e ++ "/"])

lemma foldl_insert_two {α : Type} [DecidableEq α] (g₁ g₂ : α → α)
    (init : Finset α) (l : List α) :
    l.foldl (fun u e => insert (g₂ e) (insert (g₁ e) u)) init
      = init ∪ (l.flatMap fun e => [g₁ e, g₂ e]).toFinset := by
  induction l generalizing init with
  | nil => simp
  | cons e l ih =>
    rw [List.foldl_cons, ih]
    ext x
    simp only [Finset.mem_union, Finset.mem_insert, List.mem_toFinset,
      List.flatMap_cons, List.mem_append, List.mem_cons, List.mem_flatMap,
      List.not_mem_nil, or_false]
    aesop

lemma generate_urls_eq_toFinset (base_url path : String) (extensions : List String) :
    generate_urls base_url path extensions = (all_urls base_url path extensions).toFinset := by
  unfold generate_urls all_urls
  by_cases h : extensions.isEmpty
  · rw [if_pos h]
    rw [List.isEmpty_iff] at h
    subst h
    ext x
    simp [List.mem_toFinset]
    exact or_comm
  · rw [if_neg h, foldl_insert_two]
    ext x
    simp [List.mem_toFinset]
    aesop

lemma length_flatMap_pairs {α : Type} (g₁ g₂ : α → α) (l : List α) :
    (l.flatMap fun e => [g₁ e, g₂ e]).length = 2 * l.length := by
  induction l with
  | nil => simp
  | cons e l ih => simp [ih]; omega

lemma string_append_right_ne (s : String) {t u : String} (h : t ≠ u) :
    s ++ t ≠ s ++ u := by
  intro he
  apply h
  have hd : s.data ++ t.data = s.data ++ u.data := congrArg String.data he
  have hdu := List.append_cancel_left hd
  cases t with
  | mk td =>
  cases u with
  | mk ud =>
  exact congrArg String.mk (by simpa using hdu)

lemma string_ne_append_of_ne_empty (s : String) {t : String} (h : t ≠ "") :
    s ≠ s ++ t := by
  intro he
  apply string_append_right_ne s (t := "") (u := t) (Ne.symm h)
  have : s ++ "" = s := by
    cases s
    show String.mk _ = String.mk _
    simp [String.instAppend, String.append]
  rw [this]
  exact he

lemma string_append_empty (s : String) : s ++ "" = s := by
  cases s
  show String.mk _ = String.mk _
  simp [String.instAppend, String.append]

lemma toFinset_flatMap_pairs {α : Type} [DecidableEq α] (g₁ g₂ : α → α) (l : List α) :
    (l.flatMap fun e => [g₁ e, g₂ e]).toFinset
      = (l.map g₁).toFinset ∪ (l.map g₂).toFinset := by
  induction l with
  | nil => simp
  | cons e l ih =>
    rw [List.flatMap_cons]
    rw [List.toFinset_append, ih]
    ext x
    simp only [Finset.mem_union, List.mem_toFinset, List.mem_cons,
      List.not_mem_nil, or_false, List.map_cons, Finset.mem_insert]
    tauto

lemma generate_urls_card (base_url path : String) (extensions : List String)
    (hall : (all_urls base_url path extensions).Nodup) :
    (generate_urls base_url path extensions).card = 2 + 2 * extensions.length := by
  rw [generate_urls_eq_toFinset, List.toFinset_card_of_nodup hall]
  unfold all_urls
  rw [List.length_append, length_flatMap_pairs]
  rfl

/-- Claim C2: for distinct, non-empty extensions with no collision among the
generated URL strings, the generator returns exactly the deduplicated set
consisting of the bare variant, the trailing-slash variant, and the two
extension variants per extension, with the base URL's trailing slashes
stripped before concatenation, and the set has size `2 + 2×|E|`. -/
theorem generate_urls_complete (base_url path : String) (E : List String)
    (hnd : E.Nodup) (hne : ∀ e ∈ E, e ≠ "")
    (hall : (all_urls base_url path E).Nodup) :
    generate_urls base_url path E =
      ({trimSlashes base_url ++ "/" ++ path,
        trimSlashes base_url ++ "/" ++ path ++ "/"} : Finset String)
        ∪ (E.map (fun e => trimSlashes base_url ++ "/" ++ path ++ "." ++ e)).toFinset
        ∪ (E.map (fun e => trimSlashes base_url ++ "/" ++ path ++ "." ++ e ++ "/")).toFinset
    ∧ (generate_urls base_url path E).card = 2 + 2 * E.length := by
  refine ⟨?_, generate_urls_card base_url path E hall⟩
  rw [generate_urls_eq_toFinset]
  unfold all_urls
  rw [List.toFinset_append, toFinset_flatMap_pairs, Finset.union_assoc]
  congr 1
  ext x
  simp

/-- Witness for C2 at a concrete base URL, candidate and extension list. -/
theorem generate_urls_complete_witness :
    (["php", "html"] : List String).Nodup ∧
    (generate_urls "http://example.test/" "admin" ["php", "html"]).card = 2 + 2 * 2 :=
  ⟨by decide,
    (generate_urls_complete "http://example.test/" "admin" ["php", "html"]
      (by decide) (by decide) (by decide)).2⟩

/-- Claim C10: for every base URL, candidate and extension list, both the bare
variant and the trailing-slash variant are generated, they are distinct, and
so the output set always has at least two elements. -/
theorem generate_urls_base_variants (base_url path : String) (E : List String) :
    (trimSlashes base_url ++ "/" ++ path) ∈ generate_urls base_url path E
    ∧ (trimSlashes base_url ++ "/" ++ path ++ "/") ∈ generate_urls base_url path E
    ∧ trimSlashes base_url ++ "/" ++ path ≠ trimSlashes base_url ++ "/" ++ path ++ "/"
    ∧ 2 ≤ (generate_urls base_url path E).card := by
  have hne : trimSlashes base_url ++ "/" ++ path
      ≠ trimSlashes base_url ++ "/" ++ path ++ "/" :=
    string_ne_append_of_ne_empty _ (by decide)
  have h₁ : (trimSlashes base_url ++ "/" ++ path) ∈ generate_urls base_url path E := by
    rw [generate_urls_eq_toFinset]
    simp [all_urls]
  have h₂ : (trimSlashes base_url ++ "/" ++ path ++ "/") ∈ generate_urls base_url path E := by
    rw [generate_urls_eq_toFinset]
    simp [all_urls]
  refine ⟨h₁, h₂, hne, ?_⟩
  calc 2 = ({trimSlashes base_url ++ "/" ++ path,
        trimSlashes base_url ++ "/" ++ path ++ "/"} : Finset String).card :=
        (Finset.card_pair hne).symm
    _ ≤ (generate_urls base_url path E).card := by
        apply Finset.card_le_card
        rw [Finset.insert_subset_iff, Finset.singleton_subset_iff]
        exact ⟨h₁, h₂⟩

lemma string_append_assoc (a b c : String) : a ++ b ++ c = a ++ (b ++ c) := by
  cases a with
  | mk ad =>
  cases b with
  | mk bd =>
  cases c with
  | mk cd =>
  exact congrArg String.mk (List.append_assoc ad bd cd)

/-- Counterexample to C3 as stated: with the empty extension, the generator
emits `base/path.` — a genuinely new URL, not a duplicate of a bare variant. -/
theorem empty_extension_adds_new_urls :
    "http://x/a." ∈ generate_urls "http://x" "a" [""]
    ∧ "http://x/a." ∉ generate_urls "http://x" "a" []
    ∧ (generate_urls "http://x" "a" [""]).card = 4
    ∧ (generate_urls "http://x" "a" []).card = 2 := by
  decide

/-- Claim C3 (amended): an extension equal to the empty string does not
collapse; it contributes the two fresh variants `base/path.` and
`base/path./`, which are distinct from the bare variants, so the output set
has exactly four elements. -/
theorem generate_urls_empty_extension (base_url path : String) :
    generate_urls base_url path [""] =
      insert (trimSlashes base_url ++ "/" ++ path ++ ".")
        (insert (trimSlashes base_url ++ "/" ++ path ++ "." ++ "/")
          (generate_urls base_url path []))
    ∧ (trimSlashes base_url ++ "/" ++ path ++ ".") ∉ generate_urls base_url path []
    ∧ (trimSlashes base_url ++ "/" ++ path ++ "." ++ "/") ∉ generate_urls base_url path []
    ∧ (generate_urls base_url path [""]).card = 4 := by
  have hlit : ("." : String) ++ "/" = "./" := by decide
  have hdotslash : trimSlashes base_url ++ "/" ++ path ++ "." ++ "/"
      = trimSlashes base_url ++ "/" ++ path ++ "./" := by
    rw [string_append_assoc, hlit]
  have hs0 : trimSlashes base_url ++ "/" ++ path
      ≠ trimSlashes base_url ++ "/" ++ path ++ "/" :=
    string_ne_append_of_ne_empty _ (by decide)
  have hs1 : trimSlashes base_url ++ "/" ++ path
      ≠ trimSlashes base_url ++ "/" ++ path ++ "." :=
    string_ne_append_of_ne_empty _ (by decide)
  have hs2 : trimSlashes base_url ++ "/" ++ path
      ≠ trimSlashes base_url ++ "/" ++ path ++ "./" :=
    string_ne_append_of_ne_empty _ (by decide)
  have hs3 : trimSlashes base_url ++ "/" ++ path ++ "/"
      ≠ trimSlashes base_url ++ "/" ++ path ++ "." :=
    string_append_right_ne _ (by decide)
  have hs4 : trimSlashes base_url ++ "/" ++ path ++ "/"
      ≠ trimSlashes base_url ++ "/" ++ path ++ "./" :=
    string_append_right_ne _ (by decide)
  have hs5 : trimSlashes base_url ++ "/" ++ path ++ "."
      ≠ trimSlashes base_url ++ "/" ++ path ++ "./" :=
    string_append_right_ne _ (by decide)
  have hmem1 : (trimSlashes base_url ++ "/" ++ path ++ ".")
      ∉ generate_urls base_url path [] := by
    rw [generate_urls_eq_toFinset]
    simp only [all_urls, List.flatMap_nil, List.append_nil, List.toFinset_cons,
      List.toFinset_nil, insert_emptyc_eq, Finset.mem_insert, Finset.mem_singleton]
    push_neg
    exact ⟨Ne.symm hs1, fun h => hs3 h.symm⟩
  have hmem2 : (trimSlashes base_url ++ "/" ++ path ++ "." ++ "/")
      ∉ generate_urls base_url path [] := by
    rw [generate_urls_eq_toFinset, hdotslash]
    simp only [all_urls, List.flatMap_nil, List.append_nil, List.toFinset_cons,
      List.toFinset_nil, insert_emptyc_eq, Finset.mem_insert, Finset.mem_singleton]
    push_neg
    exact ⟨Ne.symm hs2, fun h => hs4 h.symm⟩
  have hset : generate_urls base_url path [""] =
      insert (trimSlashes base_url ++ "/" ++ path ++ ".")
        (insert (trimSlashes base_url ++ "/" ++ path ++ "." ++ "/")
          (generate_urls base_url path [])) := by
    rw [generate_urls_eq_toFinset, generate_urls_eq_toFinset]
    simp only [all_urls, List.flatMap_cons, List.flatMap_nil, List.append_nil,
      string_append_empty]
    ext x
    simp only [List.mem_toFinset, List.mem_append, List.mem_cons,
      List.not_mem_nil, or_false, Finset.mem_insert]
    tauto
  have hAB : trimSlashes base_url ++ "/" ++ path ++ "."
      ≠ trimSlashes base_url ++ "/" ++ path ++ "." ++ "/" := by
    rw [hdotslash]
    exact hs5
  have hnodup : (all_urls base_url path []).Nodup := by
    simp only [all_urls, List.flatMap_nil, List.append_nil]
    refine List.nodup_cons.mpr ⟨?_, List.nodup_singleton _⟩
    simp only [List.mem_singleton]
    exact hs0
  have hcard2 : (generate_urls base_url path []).card = 2 :=
    generate_urls_card base_url path [] hnodup
  have hnotmem : trimSlashes base_url ++ "/" ++ path ++ "."
      ∉ insert (trimSlashes base_url ++ "/" ++ path ++ "." ++ "/")
        (generate_urls base_url path []) := by
    simp only [Finset.mem_insert]
    push_neg
    exact ⟨hAB, hmem1⟩
  refine ⟨hset, hmem1, hmem2, ?_⟩
  rw [hset, Finset.card_insert_of_not_mem hnotmem,
    Finset.card_insert_of_not_mem hmem2, hcard2]

/-- The progress-bar total computed by `fuzz_directory`
(`entries.len() * (1 + config.extensions.len() + 1)`, line 152). -/
def total_paths (candidateCount extensionCount : Nat) : Nat :=
  candidateCount * (1 + extensionCount + 1)

/-- Claim C1 (code bug): with one candidate and one extension the code's
progress total is `1 × (2 + 1) = 3`, yet the run probes (and increments the
progress bar for) all four generated URL variants, which is the claim's
`1 × (2 + 2×1) = 4`. -/
theorem total_paths_mismatch :
    total_paths 1 1 = 3
    ∧ (generate_urls "http://example.test" "admin" ["php"]).card = 4
    ∧ total_paths 1 1 ≠ 1 * (2 + 2 * 1) := by
  refine ⟨rfl, by decide, by decide⟩

/-- The outcome of one HTTP probe (`request.send().await`): a response with a
status code, or a network-level failure (timeout, connection error, DNS). -/
inductive ProbeOutcome where
  | response (status : Nat)
  | failure
  deriving DecidableEq

/-- The status filter of the task body (lines 191–192): accept when the
configured list is empty or contains the response's status code. -/
def status_filter (status_codes : List Nat) (status : Nat) : Bool :=
  status_codes.isEmpty || status_codes.contains status

/-- The aggregator's record operation (lines 211–212): insert the
(URL, status) pair into the shared finding set. -/
def record (found : Finset (String × Nat)) (url : String) (status : Nat) :
    Finset (String × Nat) :=
  insert (url, status) found

/-- One iteration of the task's URL loop (lines 179–223): on a response,
record the finding when the filter accepts it; on a network failure, record
nothing; either way report one progress increment. The third component is
whether the error diagnostic line is printed (`Err(e) if verbose`). -/
def probe_step (status_codes : List Nat) (verbose : Bool)
    (found : Finset (String × Nat)) (url : String) (outcome : ProbeOutcome) :
    Finset (String × Nat) × Nat × Bool :=
  match outcome with
  | ProbeOutcome.response status =>
      (if status_filter status_codes status then record found url status else found,
        1, false)
  | ProbeOutcome.failure => (found, 1, verbose)

/-- The task body's sequential loop over its generated URLs, with the network
modelled by an oracle from URL to outcome: returns the updated finding set
and the total number of progress increments. -/
def run_task (status_codes : List Nat) (verbose : Bool)
    (oracle : String → ProbeOutcome) :
    Finset (String × Nat) → List String → Finset (String × Nat) × Nat
  | found, [] => (found, 0)
  | found, url :: rest =>
      let r := probe_step status_codes verbose found url (oracle url)
      let next := run_task status_codes verbose oracle r.1 rest
      (next.1, r.2.1 + next.2)

/-- Claim C4: a response's (URL, status) pair enters the finding set iff the
configured status list is empty or contains the status; a status excluded by
a non-empty filter leaves the finding set unchanged (and is not an error). -/
theorem response_recorded_iff (status_codes : List Nat) (verbose : Bool)
    (found : Finset (String × Nat)) (url : String) (status : Nat)
    (hnew : (url, status) ∉ found) :
    ((url, status) ∈
        (probe_step status_codes verbose found url (ProbeOutcome.response status)).1
      ↔ status_codes = [] ∨ status ∈ status_codes)
    ∧ (status_codes ≠ [] → status ∉ status_codes →
        (probe_step status_codes verbose found url (ProbeOutcome.response status)).1
          = found) := by
  constructor
  · by_cases h : status_filter status_codes status
    · rw [probe_step]
      simp only [if_pos h]
      unfold status_filter at h
      rw [Bool.or_eq_true, List.isEmpty_iff] at h
      simp only [record, Finset.mem_insert]
      constructor
      · intro _
        rcases h with h | h
        · exact Or.inl h
        · exact Or.inr (by simpa using h)
      · intro _
        exact Or.inl trivial
    · rw [probe_step]
      simp only [if_neg h]
      unfold status_filter at h
      rw [Bool.or_eq_true, List.isEmpty_iff] at h
      push_neg at h
      constructor
      · intro hm
        exact absurd hm hnew
      · rintro (h1 | h2)
        · exact absurd h1 h.1
        · exact absurd (show status_codes.contains status = true by simpa using h2)
            (by simpa using h.2)
  · intro hne hnotin
    rw [probe_step]
    rw [if_neg]
    unfold status_filter
    rw [Bool.or_eq_true, List.isEmpty_iff]
    push_neg
    refine ⟨hne, ?_⟩
    intro hc
    exact hnotin (by simpa using hc)

/-- Witness for C4 with the filter `[200, 403]` and a 200 response. -/
theorem response_recorded_iff_witness :
    (("http://example.test/admin", 200) ∉ (∅ : Finset (String × Nat)))
    ∧ (("http://example.test/admin", 200) ∈
        (probe_step [200, 403] false ∅ "http://example.test/admin"
          (ProbeOutcome.response 200)).1
      ↔ [200, 403] = ([] : List Nat) ∨ 200 ∈ [200, 403]) :=
  ⟨by decide,
    (response_recorded_iff [200, 403] false ∅ "http://example.test/admin" 200
      (by decide)).1⟩

/-- Claim C5: recording the same (URL, status) pair twice yields the same
finding set, and the same size, as recording it once. -/
theorem record_idempotent (found : Finset (String × Nat)) (url : String)
    (status : Nat) :
    record (record found url status) url status = record found url status
    ∧ (record (record found url status) url status).card
        = (record found url status).card := by
  unfold record
  rw [Finset.insert_idem]
  exact ⟨rfl, rfl⟩

/-- Claim C8: a network-level failure adds nothing to the finding set, still
advances the progress counter exactly once, prints a diagnostic exactly when
verbose mode is on, and the loop continues with the remaining URLs (no retry,
no abort). -/
theorem network_failure_absorbed (status_codes : List Nat) (verbose : Bool)
    (oracle : String → ProbeOutcome) (found : Finset (String × Nat))
    (url : String) (rest : List String)
    (hfail : oracle url = ProbeOutcome.failure) :
    (probe_step status_codes verbose found url (oracle url)).1 = found
    ∧ (probe_step status_codes verbose found url (oracle url)).2.1 = 1
    ∧ ((probe_step status_codes verbose found url (oracle url)).2.2 = true
        ↔ verbose = true)
    ∧ run_task status_codes verbose oracle found (url :: rest)
        = ((run_task status_codes verbose oracle found rest).1,
            1 + (run_task status_codes verbose oracle found rest).2) := by
  rw [run_task, hfail]
  simp [probe_step]

/-- Witness for C8: an oracle that always fails, over one remaining URL. -/
theorem network_failure_absorbed_witness :
    ((fun _ : String => ProbeOutcome.failure) "http://x/a" = ProbeOutcome.failure)
    ∧ (probe_step [200] true ∅ "http://x/a"
        ((fun _ : String => ProbeOutcome.failure) "http://x/a")).1 = ∅ :=
  ⟨rfl,
    (network_failure_absorbed [200] true (fun _ => ProbeOutcome.failure) ∅
      "http://x/a" ["http://x/b"] rfl).1⟩

/-- `BufRead::lines` strips the trailing carriage return only after a newline
was found: remove one trailing char when the accumulated line ends in CR. -/
def strip_cr : List Char → List Char
  | [] => []
  | [c] => if c = '\r' then [] else [c]
  | c :: rest => c :: strip_cr rest

/-- Character-level model of `BufReader::lines` (line 131): cut at each
newline (dropping it, and a carriage return just before it); a final segment
without a newline is kept as-is, unless it is empty. The first argument is
the current line accumulated in reverse. -/
def lines_aux : List Char → List Char → List (List Char)
  | cur, [] => if cur = [] then [] else [cur.reverse]
  | cur, c :: rest =>
      if c = '\n' then strip_cr cur.reverse :: lines_aux [] rest
      else lines_aux (c :: cur) rest

/-- The wordlist entries the engine reads from the file's contents
(`reader.lines().collect()`, line 131). -/
def rust_lines (s : String) : List String :=
  (lines_aux [] s.data).map String.mk

/-- The wordlist load (lines 129–131): `File::open` failure propagates with
`?` (fatal); success yields the file's lines. An unreadable file is modelled
as `none`. -/
def read_wordlist (file : Option String) : Except String (List String) :=
  match file with
  | none => Except.error "failed to open wordlist"
  | some content => Except.ok (rust_lines content)

/-- One enumeration of the generator's `HashSet` in the order the task probes
its variants (the hash set's iteration order is arbitrary; this fixes insertion
order after deduplication). -/
def task_urls (base_url path : String) (extensions : List String) : List String :=
  (all_urls base_url path extensions).dedup

/-- The orchestrated scan up to the final finding set: load the wordlist
(fatal on failure), then process every candidate's variants through the task
loop. The network is an oracle from URL to outcome. -/
def scan_findings (file : Option String) (base_url : String)
    (extensions : List String) (status_codes : List Nat) (verbose : Bool)
    (oracle : String → ProbeOutcome) : Except String (Finset (String × Nat)) :=
  match read_wordlist file with
  | Except.error e => Except.error e
  | Except.ok entries =>
      Except.ok (entries.foldl
        (fun found path =>
          (run_task status_codes verbose oracle found
            (task_urls base_url path extensions)).1) ∅)

/-- Whitespace trim following the claim's words (for comparison with the
code's behaviour): remove leading and trailing whitespace from a candidate. -/
def spec_trimmed (s : String) : String :=
  String.mk (((s.data.dropWhile Char.isWhitespace).reverse.dropWhile
    Char.isWhitespace).reverse)

/-- Counterexample to C9 as stated: the engine keeps the line `" admin "`
with its surrounding whitespace; the trimmed candidate sequence the claim
describes would be `["admin"]`. -/
theorem wordlist_not_trimmed :
    read_wordlist (some " admin \n") = Except.ok [" admin "]
    ∧ (rust_lines " admin \n").map spec_trimmed = ["admin"]
    ∧ rust_lines " admin \n" ≠ (rust_lines " admin \n").map spec_trimmed := by
  refine ⟨rfl, by decide, by decide⟩

/-- Claim C9 (amended): the candidates are exactly the file's lines with only
the line terminator removed (no whitespace trimming), one candidate per line;
an unreadable wordlist is fatal — the scan returns the error and produces no
findings at all. -/
theorem wordlist_lines_and_fatal (base_url : String) (extensions : List String)
    (status_codes : List Nat) (verbose : Bool) (oracle : String → ProbeOutcome) :
    scan_findings none base_url extensions status_codes verbose oracle
      = Except.error "failed to open wordlist"
    ∧ (∀ content, read_wordlist (some content) = Except.ok (rust_lines content))
    ∧ rust_lines "admin\r\nlogin\nsecret" = ["admin", "login", "secret"]
    ∧ rust_lines " admin \n" = [" admin "]
    ∧ rust_lines "" = [] := by
  refine ⟨rfl, fun content => rfl, by decide, by decide, by decide⟩

/-- Byte-lexicographic comparison of two character lists, the order of Rust's
`str::cmp` used by the report sort (UTF-8 byte order agrees with scalar-value
order). -/
def leChars : List Char → List Char → Bool
  | [], _ => true
  | _ :: _, [] => false
  | x :: xs, y :: ys =>
      if x.toNat < y.toNat then true
      else if y.toNat < x.toNat then false
      else leChars xs ys

lemma char_eq_of_toNat_eq {a b : Char} (h : a.toNat = b.toNat) : a = b := by
  apply Char.eq_of_val_eq
  apply UInt32.eq_of_val_eq
  exact Fin.eq_of_val_eq h

lemma string_eq_of_data_eq {s t : String} (h : s.data = t.data) : s = t := by
  cases s with
  | mk sd =>
  cases t with
  | mk td =>
  exact congrArg String.mk h

lemma leChars_total (a : List Char) : ∀ b, leChars a b = true ∨ leChars b a = true := by
  induction a with
  | nil => intro b; exact Or.inl rfl
  | cons x xs ih =>
    intro b
    cases b with
    | nil => exact Or.inr rfl
    | cons y ys =>
      simp only [leChars]
      by_cases hxy : x.toNat < y.toNat
      · left
        simp [hxy]
      · by_cases hyx : y.toNat < x.toNat
        · right
          simp [hxy, hyx]
        · rcases ih ys with h | h
          · left
            simp [hxy, hyx, h]
          · right
            simp [hxy, hyx, h]

lemma leChars_trans (a : List Char) : ∀ b c, leChars a b = true → leChars b c = true →
    leChars a c = true := by
  induction a with
  | nil => intro b c _ _; rfl
  | cons x xs ih =>
    intro b c h1 h2
    cases b with
    | nil => simp [leChars] at h1
    | cons y ys =>
      cases c with
      | nil => simp [leChars] at h2
      | cons z zs =>
        simp only [leChars] at h1 h2 ⊢
        by_cases hxy : x.toNat < y.toNat
        · by_cases hyz : y.toNat < z.toNat
          · simp [Nat.lt_trans hxy hyz]
          · by_cases hzy : z.toNat < y.toNat
            · simp [hyz, hzy] at h2
            · have hxz : x.toNat < z.toNat := by omega
              simp [hxz]
        · by_cases hyx : y.toNat < x.toNat
          · simp [hxy, hyx] at h1
          · by_cases hyz : y.toNat < z.toNat
            · have hxz : x.toNat < z.toNat := by omega
              simp [hxz]
            · by_cases hzy : z.toNat < y.toNat
              · simp [hyz, hzy] at h2
              · have h1' : leChars xs ys = true := by simpa [hxy, hyx] using h1
                have h2' : leChars ys zs = true := by simpa [hyz, hzy] using h2
                have hxz : ¬ x.toNat < z.toNat := by omega
                have hzx : ¬ z.toNat < x.toNat := by omega
                simp only [hxz, hzx, if_false]
                exact ih ys zs h1' h2'

lemma leChars_antisymm (a : List Char) : ∀ b, leChars a b = true → leChars b a = true →
    a = b := by
  induction a with
  | nil =>
    intro b h1 h2
    cases b with
    | nil => rfl
    | cons y ys => simp [leChars] at h2
  | cons x xs ih =>
    intro b h1 h2
    cases b with
    | nil => simp [leChars] at h1
    | cons y ys =>
      simp only [leChars] at h1 h2
      by_cases hxy : x.toNat < y.toNat
      · by_cases hyx : y.toNat < x.toNat
        · omega
        · simp [hxy, hyx] at h2
      · by_cases hyx : y.toNat < x.toNat
        · simp [hxy, hyx] at h1
        · have hx : x = y := char_eq_of_toNat_eq (by omega)
          have h1' : leChars xs ys = true := by simpa [hxy, hyx] using h1
          have h2' : leChars ys xs = true := by simpa [hxy, hyx] using h2
          rw [hx, ih ys h1' h2']

/-- The report sort's key order: byte-lexicographic on the finding's URL
(`a.0.cmp(&b.0)`, line 249). -/
def urlLe (a b : String × Nat) : Prop := leChars a.1.data b.1.data = true

instance : DecidableRel urlLe := fun a b =>
  inferInstanceAs (Decidable (leChars a.1.data b.1.data = true))

instance : IsTotal (String × Nat) urlLe :=
  ⟨fun a b => leChars_total a.1.data b.1.data⟩

instance : IsTrans (String × Nat) urlLe :=
  ⟨fun a b c h1 h2 => leChars_trans a.1.data b.1.data c.1.data h1 h2⟩

/-- Strict version of the key order: the URLs themselves differ. -/
def urlLt (a b : String × Nat) : Prop := urlLe a b ∧ a.1 ≠ b.1

instance : IsAntisymm (String × Nat) urlLt :=
  ⟨fun a b h1 h2 =>
    absurd (string_eq_of_data_eq (leChars_antisymm a.1.data b.1.data h1.1 h2.1)) h1.2⟩

/-- The final report (lines 248–249): a stable sort of the snapshot of the
finding set, comparing only the URL component. Rust's `sort_by` is stable, so
its output coincides with a stable insertion sort under the same comparator. -/
def sort_findings (l : List (String × Nat)) : List (String × Nat) :=
  List.insertionSort urlLe l

/-- Counterexample to C6 as stated: two findings with the same URL and
different statuses enumerate the same set, but the URL-only stable sort keeps
their (arbitrary) snapshot order, so the two reports differ. -/
theorem report_order_tie_dependent :
    ([("http://x/a", 200), ("http://x/a", 404)] : List (String × Nat)).toFinset
      = ([("http://x/a", 404), ("http://x/a", 200)] : List (String × Nat)).toFinset
    ∧ ([("http://x/a", 200), ("http://x/a", 404)] : List (String × Nat)).Nodup
    ∧ ([("http://x/a", 404), ("http://x/a", 200)] : List (String × Nat)).Nodup
    ∧ sort_findings [("http://x/a", 200), ("http://x/a", 404)]
      ≠ sort_findings [("http://x/a", 404), ("http://x/a", 200)] := by
  refine ⟨by decide, by decide, by decide, by decide⟩

/-- Claim C6 (amended): two runs that produce the same final finding set in
which no two findings share a URL emit identical sorted reports, regardless of
the (task-completion-dependent) order in which the snapshot enumerates the
set. -/
theorem report_deterministic (l₁ l₂ : List (String × Nat))
    (h₁ : l₁.Nodup) (h₂ : l₂.Nodup) (hset : l₁.toFinset = l₂.toFinset)
    (hkeys : (l₁.map Prod.fst).Nodup) :
    sort_findings l₁ = sort_findings l₂ := by
  have hp : List.Perm l₁ l₂ := List.perm_of_nodup_nodup_toFinset_eq h₁ h₂ hset
  have hs₁ : (sort_findings l₁).Sorted urlLe := List.sorted_insertionSort urlLe l₁
  have hs₂ : (sort_findings l₂).Sorted urlLe := List.sorted_insertionSort urlLe l₂
  have hperm : List.Perm (sort_findings l₁) (sort_findings l₂) :=
    (List.perm_insertionSort urlLe l₁).trans
      (hp.trans (List.perm_insertionSort urlLe l₂).symm)
  have hkl₁ : l₁.Pairwise (fun a b => a.1 ≠ b.1) := by
    rw [List.Nodup, List.pairwise_map] at hkeys
    exact hkeys
  have hkl₂ : l₂.Pairwise (fun a b => a.1 ≠ b.1) :=
    (hp.pairwise_iff (fun hxy => Ne.symm hxy)).mp hkl₁
  have hk₁ : (sort_findings l₁).Pairwise (fun a b => a.1 ≠ b.1) :=
    ((List.perm_insertionSort urlLe l₁).pairwise_iff (fun hxy => Ne.symm hxy)).mpr hkl₁
  have hk₂ : (sort_findings l₂).Pairwise (fun a b => a.1 ≠ b.1) :=
    ((List.perm_insertionSort urlLe l₂).pairwise_iff (fun hxy => Ne.symm hxy)).mpr hkl₂
  have hlt₁ : (sort_findings l₁).Sorted urlLt :=
    (List.Pairwise.and hs₁ hk₁).imp (fun hab => hab)
  have hlt₂ : (sort_findings l₂).Sorted urlLt :=
    (List.Pairwise.and hs₂ hk₂).imp (fun hab => hab)
  exact List.eq_of_perm_of_sorted hperm hlt₁ hlt₂

/-- Witness for C6 (amended) on two distinct-URL snapshots of one set. -/
theorem report_deterministic_witness :
    ([("http://x/a", 200), ("http://x/b", 404)] : List (String × Nat)).Nodup
    ∧ sort_findings [("http://x/a", 200), ("http://x/b", 404)]
        = sort_findings [("http://x/b", 404), ("http://x/a", 200)] :=
  ⟨by decide,
    report_deterministic _ _ (by decide) (by decide) (by decide) (by decide)⟩

/-- Concurrency bookkeeping of the spawn loop: free semaphore permits and
tasks currently inside the requesting phase (each holding one permit). -/
structure ScanState where
  available : Nat
  requesting : Nat

/-- The permit discipline of lines 161–174: the orchestrator acquires one of
the semaphore's permits before spawning each task (possible only when a permit
is free), and the task returns its permit when its whole unit of work
completes — the scoped `_permit` binding is dropped on every exit path. -/
inductive ScanStep : ScanState → ScanState → Prop
  | spawn (s : ScanState) (h : 0 < s.available) :
      ScanStep s ⟨s.available - 1, s.requesting + 1⟩
  | finish (s : ScanState) (h : 0 < s.requesting) :
      ScanStep s ⟨s.available + 1, s.requesting - 1⟩

/-- States reachable from the initial state `⟨threads, 0⟩`
(`Semaphore::new(config.threads)`, line 161). -/
inductive ScanReachable (threads : Nat) : ScanState → Prop
  | init : ScanReachable threads ⟨threads, 0⟩
  | step {s t : ScanState} : ScanReachable threads s → ScanStep s t →
      ScanReachable threads t

lemma reachable_permit_conservation {threads : Nat} {s : ScanState}
    (h : ScanReachable threads s) : s.available + s.requesting = threads := by
  induction h with
  | init => rfl
  | step hr hs ih =>
    cases hs with
    | spawn hpos =>
      dsimp only
      omega
    | finish hpos =>
      dsimp only
      omega

/-- Claim C7: for any thread count ≥ 1, in every state the scan can reach,
the number of tasks inside the requesting phase never exceeds the configured
thread count — each task holds one of the `threads` permits for its whole
unit of work. -/
theorem requesting_bounded (threads : Nat) (s : ScanState)
    (hthreads : 1 ≤ threads) (h : ScanReachable threads s) :
    s.requesting ≤ threads := by
  have hinv := reachable_permit_conservation h
  omega

/-- Witness for C7: one permit, one task spawned into the requesting phase. -/
theorem requesting_bounded_witness :
    (1 : Nat) ≤ 1 ∧ (ScanState.mk 0 1).requesting ≤ 1 :=
  ⟨by decide,
    requesting_bounded 1 ⟨0, 1⟩ (by decide)
      (ScanReachable.step ScanReachable.init (ScanStep.spawn ⟨1, 0⟩ (by decide)))⟩
